import Mathlib

/-!
Shallow embedding of the `cachedhash` crate: the atomic optional-integer
slot (`src/atomic.rs`) and the hash-memoizing wrapper (`src/cachedhash.rs`).

Machine state is modelled purely: the atomic cell becomes a one-field
structure holding its backing word as a `Nat` (the program performs no
arithmetic on digests, only the `= 0` emptiness test, so the u64 width is
irrelevant to every property below); methods that mutate through `&self` or
`&mut self` return the updated structure.  The composite digest pipeline
`build_hasher.build_hasher()` / `value.hash(&mut hasher)` / `hasher.finish()`
is modelled as one deterministic function `T → Nat` giving the raw 64-bit
digest of a value, exactly the granularity at which `cachedhash.rs` uses it.
The `Hash::hash` implementation is additionally instrumented with the count
of digest-provider invocations it performs (`1` in the cache-miss branch,
`0` in the fast path), so that compute-once properties are statements about
the embedding rather than meta-claims.
-/

namespace Cachedhash

/-- Model of `std::num::NonZeroU64`: a word together with the guarantee it is not the
empty sentinel `0`. -/
structure NonZeroU64 where
  val : Nat
  ne : val ≠ 0

/-- Rust `NonZeroU64::new`: `some` exactly on a non-zero argument
(also the model of the fallible `u64 → NonZeroU64` conversion `try_into`). -/
def NonZeroU64.new (n : Nat) : Option NonZeroU64 :=
  if h : n = 0 then none else some ⟨n, h⟩

/-- The constant `NonZeroU64::new(1).unwrap()` used as the zero-digest
stand-in. -/
def NonZeroU64.one : NonZeroU64 :=
  ⟨1, Nat.one_ne_zero⟩

/-- Model of `AtomicOptionNonZeroU64` (src/atomic.rs): an `Option<NonZeroU64>` packed
into one atomic word, `0` meaning `None`. -/
structure AtomicOptionNonZeroU64 where
  word : Nat

/-- Rust `AtomicOptionNonZeroU64::new_none`: backing word `0`. -/
def AtomicOptionNonZeroU64.new_none : AtomicOptionNonZeroU64 :=
  ⟨0⟩

/-- Rust `AtomicOptionNonZeroU64::new_some`. -/
def AtomicOptionNonZeroU64.new_some (v : NonZeroU64) : AtomicOptionNonZeroU64 :=
  ⟨v.val⟩

/-- Rust `AtomicOptionNonZeroU64::get_raw`: relaxed load; `None` iff the word is
`0`, else the word itself. -/
def AtomicOptionNonZeroU64.get_raw (s : AtomicOptionNonZeroU64) : Option Nat :=
  if s.word = 0 then none else some s.word

/-- Rust `AtomicOptionNonZeroU64::get`, with the `try_into().unwrap()` in its else
branch made explicit: `Except.error` is the panic of `unwrap` on a failed
conversion. -/
def AtomicOptionNonZeroU64.get (s : AtomicOptionNonZeroU64) :
    Except String (Option NonZeroU64) :=
  if s.word = 0 then
    Except.ok none
  else
    match NonZeroU64.new s.word with
    | some v => Except.ok (some v)
    | none => Except.error "called unwrap on a None value"

/-- Rust `AtomicOptionNonZeroU64::set`: stores `0` for `None`, the carried word
for `Some`. -/
def AtomicOptionNonZeroU64.set (s : AtomicOptionNonZeroU64)
    (value : Option NonZeroU64) : AtomicOptionNonZeroU64 :=
  let _ := s
  ⟨(value.map NonZeroU64.val).getD 0⟩

/-- Rust `impl Clone for AtomicOptionNonZeroU64`: a fresh cell initialised from a
relaxed snapshot of the source word. -/
def AtomicOptionNonZeroU64.clone (s : AtomicOptionNonZeroU64) :
    AtomicOptionNonZeroU64 :=
  ⟨s.word⟩

/-- Model of `CachedHash<T, BH>` (src/cachedhash.rs): the wrapped value, the cached
hash cell, and the build hasher — the latter modelled as the deterministic
raw-digest function it induces on `T`. -/
structure CachedHash (T : Type) where
  value : T
  hash : AtomicOptionNonZeroU64
  build_hasher : T → Nat

/-- Rust `CachedHash::new_with_build_hasher`: starts with an empty cache. -/
def CachedHash.new_with_build_hasher {T : Type} (value : T)
    (build_hasher : T → Nat) : CachedHash T :=
  ⟨value, AtomicOptionNonZeroU64.new_none, build_hasher⟩

/-- Rust `CachedHash::new` / `new_with_hasher`: both delegate to
`new_with_build_hasher`; in the model the default-constructed build hasher
is the digest function passed in. -/
def CachedHash.new {T : Type} (value : T) (build_hasher : T → Nat) :
    CachedHash T :=
  CachedHash.new_with_build_hasher value build_hasher

/-- Rust `CachedHash::invalidate_hash`: `this.hash.set(None)`. -/
def CachedHash.invalidate_hash {T : Type} (this : CachedHash T) :
    CachedHash T :=
  { this with hash := this.hash.set none }

/-- Rust `CachedHash::take_value`: destructs the wrapper, returning the value. -/
def CachedHash.take_value {T : Type} (this : CachedHash T) : T :=
  this.value

/-- Rust `CachedHash::get`: the immutable reference to the stored value. -/
def CachedHash.get {T : Type} (this : CachedHash T) : T :=
  this.value

/-- Rust `CachedHash::get_mut`: invalidates the cached hash, then hands out the
mutable reference — modelled as the updated wrapper paired with the value
the returned reference points at. -/
def CachedHash.get_mut {T : Type} (this : CachedHash T) :
    CachedHash T × T :=
  let this2 := CachedHash.invalidate_hash this
  (this2, this2.value)

/-- A caller obtaining `get_mut`'s reference and writing `f` of the old
content through it: the cache is cleared by `get_mut` before the write. -/
def CachedHash.get_mut_write {T : Type} (this : CachedHash T) (f : T → T) :
    CachedHash T :=
  { (CachedHash.get_mut this).1 with value := f (CachedHash.get_mut this).2 }

/-- Rust `impl PartialEq for CachedHash`: `self.value == other.value`. -/
def CachedHash.eq {T : Type} [BEq T] (a b : CachedHash T) : Bool :=
  a.value == b.value

/-- The observable outcome of one `Hash::hash` call: the updated wrapper,
the 64-bit digest fed to the caller's accumulator via `state.write_u64`,
and how many times the digest provider (fresh hasher over `value`) ran. -/
structure HashOut (T : Type) where
  state : CachedHash T
  fed : Nat
  providerCalls : Nat

/-- Rust `impl Hash for CachedHash::hash`: fast path feeds the stored digest;
the miss branch computes the raw digest, remaps `0` to `1` via
`NonZeroU64::new(..).unwrap_or(1)`, stores it and feeds it. -/
def CachedHash.hashOnce {T : Type} (this : CachedHash T) : HashOut T :=
  match this.hash.get_raw with
  | some h => ⟨this, h, 0⟩
  | none =>
    let raw := this.build_hasher this.value
    let d := (NonZeroU64.new raw).getD NonZeroU64.one
    ⟨{ this with hash := this.hash.set (some d) }, d.val, 1⟩

/-- Rust `impl DerefMut for CachedHash`: delegates to `get_mut`. -/
def CachedHash.deref_mut {T : Type} (this : CachedHash T) :
    CachedHash T × T :=
  CachedHash.get_mut this

/-- Rust `impl AsMut for CachedHash`: delegates to `get_mut`. -/
def CachedHash.as_mut {T : Type} (this : CachedHash T) :
    CachedHash T × T :=
  CachedHash.get_mut this

/-- Rust `impl BorrowMut for CachedHash`: delegates to `get_mut`. -/
def CachedHash.borrow_mut {T : Type} (this : CachedHash T) :
    CachedHash T × T :=
  CachedHash.get_mut this

/-- Rust `impl Clone for CachedHash`: clones the value and build hasher (pure
data, so identity in the model) and snapshots the cache cell. -/
def CachedHash.clone {T : Type} (this : CachedHash T) : CachedHash T :=
  ⟨this.value, this.hash.clone, this.build_hasher⟩

/-- The digest the build hasher would currently compute over the wrapped
value, after the zero-to-one remap. -/
def CachedHash.currentDigest {T : Type} (c : CachedHash T) : Nat :=
  if c.build_hasher c.value = 0 then 1 else c.build_hasher c.value

/-- One externally observable operation on a `CachedHash`: mutable access
writing `f` through the returned reference (`f = id` for an access that
writes nothing), manual invalidation, a hashing call, or replacement by a
clone. -/
inductive Op (T : Type) where
  | getMut (f : T → T)
  | invalidate
  | hashOp
  | cloneOp

/-- The state after one operation. -/
def applyOp {T : Type} (c : CachedHash T) : Op T → CachedHash T
  | Op.getMut f => CachedHash.get_mut_write c f
  | Op.invalidate => CachedHash.invalidate_hash c
  | Op.hashOp => (CachedHash.hashOnce c).state
  | Op.cloneOp => CachedHash.clone c

/-- The state after a sequence of operations, first operation first. -/
def applyOps {T : Type} (c : CachedHash T) : List (Op T) → CachedHash T
  | [] => c
  | op :: ops => applyOps (applyOp c op) ops

/-- The cache-consistency invariant: a populated cache cell holds exactly
the remapped digest of the current value. -/
def Inv {T : Type} (c : CachedHash T) : Prop :=
  ∀ d, c.hash.get_raw = some d → d = CachedHash.currentDigest c

/-- Runs `n` consecutive hashing calls: the final state and the total number of
digest-provider invocations across them. -/
def iterHash {T : Type} : Nat → CachedHash T → CachedHash T × Nat
  | 0, c => (c, 0)
  | n + 1, c =>
    let r := CachedHash.hashOnce c
    let rest := iterHash n r.state
    (rest.1, r.providerCalls + rest.2)

/-! ### Basic lemmas about the slot and the hashing call -/

theorem get_raw_mk (w : Nat) :
    (AtomicOptionNonZeroU64.mk w).get_raw = if w = 0 then none else some w :=
  rfl

theorem set_none_eq (s : AtomicOptionNonZeroU64) :
    s.set none = ⟨0⟩ :=
  rfl

theorem set_some_eq (s : AtomicOptionNonZeroU64) (v : NonZeroU64) :
    s.set (some v) = ⟨v.val⟩ :=
  rfl

theorem get_raw_set_none (s : AtomicOptionNonZeroU64) :
    (s.set none).get_raw = none :=
  rfl

theorem get_raw_set_some (s : AtomicOptionNonZeroU64) (v : NonZeroU64) :
    (s.set (some v)).get_raw = some v.val := by
  simp [AtomicOptionNonZeroU64.set, AtomicOptionNonZeroU64.get_raw, v.ne]

theorem new_getD_val (raw : Nat) :
    ((NonZeroU64.new raw).getD NonZeroU64.one).val =
      if raw = 0 then 1 else raw := by
  by_cases h : raw = 0 <;> simp [NonZeroU64.new, NonZeroU64.one, h]

theorem currentDigest_mk {T : Type} (v : T) (s : AtomicOptionNonZeroU64)
    (bh : T → Nat) :
    CachedHash.currentDigest ⟨v, s, bh⟩ = if bh v = 0 then 1 else bh v :=
  rfl

theorem currentDigest_ne_zero {T : Type} (c : CachedHash T) :
    CachedHash.currentDigest c ≠ 0 := by
  unfold CachedHash.currentDigest
  by_cases h : c.build_hasher c.value = 0 <;> simp [h]

theorem hashOnce_of_populated {T : Type} {c : CachedHash T} {d : Nat}
    (h : c.hash.get_raw = some d) :
    CachedHash.hashOnce c = ⟨c, d, 0⟩ := by
  unfold CachedHash.hashOnce
  rw [h]

theorem hashOnce_of_empty {T : Type} {c : CachedHash T}
    (h : c.hash.get_raw = none) :
    CachedHash.hashOnce c =
      ⟨⟨c.value, ⟨CachedHash.currentDigest c⟩, c.build_hasher⟩,
        CachedHash.currentDigest c, 1⟩ := by
  unfold CachedHash.hashOnce
  rw [h]
  have hv := new_getD_val (c.build_hasher c.value)
  simp only [set_some_eq, hv]
  rfl

theorem hashOnce_state_value {T : Type} (c : CachedHash T) :
    (CachedHash.hashOnce c).state.value = c.value := by
  cases hg : c.hash.get_raw with
  | none => rw [hashOnce_of_empty hg]
  | some d => rw [hashOnce_of_populated hg]

theorem hashOnce_state_build_hasher {T : Type} (c : CachedHash T) :
    (CachedHash.hashOnce c).state.build_hasher = c.build_hasher := by
  cases hg : c.hash.get_raw with
  | none => rw [hashOnce_of_empty hg]
  | some d => rw [hashOnce_of_populated hg]

theorem hashOnce_populates {T : Type} (c : CachedHash T) :
    (CachedHash.hashOnce c).state.hash.get_raw =
      some (CachedHash.hashOnce c).fed := by
  cases hg : c.hash.get_raw with
  | none =>
      rw [hashOnce_of_empty hg]
      simp [AtomicOptionNonZeroU64.get_raw, currentDigest_ne_zero c]
  | some d => rw [hashOnce_of_populated hg]; exact hg

theorem get_mut_fst {T : Type} (c : CachedHash T) :
    (CachedHash.get_mut c).1 = ⟨c.value, ⟨0⟩, c.build_hasher⟩ :=
  rfl

theorem clone_eq_self {T : Type} (c : CachedHash T) :
    CachedHash.clone c = c :=
  rfl

theorem iterHash_of_populated {T : Type} {c : CachedHash T} {d : Nat}
    (h : c.hash.get_raw = some d) :
    ∀ n, iterHash n c = (c, 0) := by
  intro n
  induction n with
  | zero => rfl
  | succ m ih =>
      show (let r := CachedHash.hashOnce c
            let rest := iterHash m r.state
            ((rest.1 : CachedHash T), r.providerCalls + rest.2)) = (c, 0)
      rw [hashOnce_of_populated h]
      simpa using ih

/-! ### Preservation of the cache-consistency invariant -/

theorem inv_of_empty {T : Type} {c : CachedHash T}
    (h : c.hash.get_raw = none) : Inv c := by
  intro d hd
  rw [h] at hd
  exact absurd hd (by simp)

theorem inv_applyOp {T : Type} {c : CachedHash T} (h : Inv c) (op : Op T) :
    Inv (applyOp c op) := by
  cases op with
  | getMut f =>
      exact inv_of_empty rfl
  | invalidate =>
      exact inv_of_empty rfl
  | hashOp =>
      cases hg : c.hash.get_raw with
      | some d =>
          show Inv (CachedHash.hashOnce c).state
          rw [hashOnce_of_populated hg]
          exact h
      | none =>
          show Inv (CachedHash.hashOnce c).state
          rw [hashOnce_of_empty hg]
          intro d hd
          have hne := currentDigest_ne_zero c
          rw [get_raw_mk, if_neg hne] at hd
          cases hd
          rfl
  | cloneOp =>
      show Inv (CachedHash.clone c)
      rw [clone_eq_self]
      exact h

theorem inv_applyOps {T : Type} {c : CachedHash T} (h : Inv c)
    (ops : List (Op T)) : Inv (applyOps c ops) := by
  induction ops generalizing c with
  | nil => exact h
  | cons op ops ih => exact ih (inv_applyOp h op)

/-! ### Frame lemmas: which fields each operation can change -/

theorem applyOp_value {T : Type} (c : CachedHash T) (op : Op T)
    (hid : ∀ f, op = Op.getMut f → ∀ x, f x = x) :
    (applyOp c op).value = c.value := by
  cases op with
  | getMut f => exact hid f rfl c.value
  | invalidate => rfl
  | hashOp => exact hashOnce_state_value c
  | cloneOp => rfl

theorem applyOps_value {T : Type} (c : CachedHash T) (ops : List (Op T))
    (hid : ∀ f, Op.getMut f ∈ ops → ∀ x, f x = x) :
    (applyOps c ops).value = c.value := by
  induction ops generalizing c with
  | nil => rfl
  | cons op ops ih =>
      have htail : ∀ f, Op.getMut f ∈ ops → ∀ x, f x = x :=
        fun f hf => hid f (List.mem_cons_of_mem op hf)
      have hhead : ∀ f, op = Op.getMut f → ∀ x, f x = x :=
        fun f hf => hid f (hf ▸ List.mem_cons_self op ops)
      calc (applyOps (applyOp c op) ops).value
          = (applyOp c op).value := ih (applyOp c op) htail
        _ = c.value := applyOp_value c op hhead

theorem get_total (s : AtomicOptionNonZeroU64) :
    ∃ r, AtomicOptionNonZeroU64.get s = Except.ok r := by
  unfold AtomicOptionNonZeroU64.get
  by_cases h : s.word = 0
  · exact ⟨none, by rw [if_pos h]⟩
  · refine ⟨some ⟨s.word, h⟩, ?_⟩
    rw [if_neg h]
    simp [NonZeroU64.new, h]

/-! ### The claims -/

/-- C1: cache-consistency invariant — after every sequence of construction,
mutable access, manual invalidation, hashing and cloning operations, a
populated cache cell holds exactly the digest the stored build hasher would
currently compute over the wrapped value, with raw digest `0` remapped
to `1`. -/
theorem cache_consistency_invariant {T : Type} (v : T) (bh : T → Nat)
    (ops : List (Op T)) :
    Inv (applyOps (CachedHash.new v bh) ops) :=
  inv_applyOps (inv_of_empty (show (CachedHash.new v bh).hash.get_raw = none from rfl)) ops

/-- C2: compute-once — when the cache is populated, a hashing call takes the
fast path: it feeds the stored digest, leaves the state unchanged and never
invokes the digest provider; and across any positive number of repeated
hashing calls on a freshly constructed wrapper the provider runs exactly
once. -/
theorem compute_once {T : Type} (c : CachedHash T) (d : Nat)
    (h : c.hash.get_raw = some d) (v : T) (bh : T → Nat)
    (n : Nat) (hn : 1 ≤ n) :
    CachedHash.hashOnce c = ⟨c, d, 0⟩ ∧
    (iterHash n (CachedHash.new v bh)).2 = 1 := by
  refine ⟨hashOnce_of_populated h, ?_⟩
  obtain ⟨m, rfl⟩ : ∃ m, n = m + 1 := ⟨n - 1, by omega⟩
  have h0 : (CachedHash.new v bh).hash.get_raw = none := rfl
  have hp := hashOnce_populates (CachedHash.new v bh)
  simp only [iterHash]
  rw [iterHash_of_populated hp m, hashOnce_of_empty h0]
  simp

/-- C2 witness: the fast path and the exactly-once count at a concrete
wrapper over `Nat`. -/
theorem compute_once_witness :
    CachedHash.hashOnce (CachedHash.mk (5 : Nat) ⟨7⟩ (fun _ => 7)) =
      ⟨CachedHash.mk (5 : Nat) ⟨7⟩ (fun _ => 7), 7, 0⟩ ∧
    (iterHash 3 (CachedHash.new (5 : Nat) (fun _ => 7))).2 = 1 :=
  compute_once (CachedHash.mk (5 : Nat) ⟨7⟩ (fun _ => 7)) 7 rfl
    5 (fun _ => 7) 3 (by decide)

/-- C3: invalidation on mutable access — `get_mut` clears the cache cell
before handing out the mutable reference, and the mutable-dereference,
as-mut and borrow-mut capabilities are the very same operation. -/
theorem mutable_access_invalidates {T : Type} (c : CachedHash T) :
    (CachedHash.get_mut c).1.hash.get_raw = none ∧
    CachedHash.deref_mut c = CachedHash.get_mut c ∧
    CachedHash.as_mut c = CachedHash.get_mut c ∧
    CachedHash.borrow_mut c = CachedHash.get_mut c :=
  ⟨rfl, rfl, rfl, rfl⟩

/-- C7: slot round-trip — a fresh slot reads empty, writing `None` makes it
read empty, writing `Some v` (with `v` non-zero by its type) makes it read
`Some v`; a read returns `None` exactly when the backing word is `0` and
otherwise returns the word itself. -/
theorem slot_read_write_roundtrip (v : NonZeroU64)
    (s : AtomicOptionNonZeroU64) :
    AtomicOptionNonZeroU64.new_none.get_raw = none ∧
    (s.set none).get_raw = none ∧
    (s.set (some v)).get_raw = some v.val ∧
    (s.get_raw = none ↔ s.word = 0) ∧
    (s.word ≠ 0 → s.get_raw = some s.word) := by
  refine ⟨rfl, rfl, get_raw_set_some s v, ?_, ?_⟩
  · unfold AtomicOptionNonZeroU64.get_raw
    by_cases h : s.word = 0 <;> simp [h]
  · intro h
    unfold AtomicOptionNonZeroU64.get_raw
    rw [if_neg h]

/-- C9: totality — the slot's `get` never reaches the failing branch of its
internal `unwrap` (the zero guard protects the conversion), the digest
stored by the hashing path is never the empty sentinel (the `unwrap_or(1)`
fallback), and `get` on a slot just written by a hashing call succeeds as
well. -/
theorem no_failing_branch {T : Type} (s : AtomicOptionNonZeroU64)
    (c : CachedHash T) (raw : Nat) :
    (∃ r, AtomicOptionNonZeroU64.get s = Except.ok r) ∧
    ((NonZeroU64.new raw).getD NonZeroU64.one).val ≠ 0 ∧
    (∃ r, AtomicOptionNonZeroU64.get (CachedHash.hashOnce c).state.hash =
      Except.ok r) := by
  refine ⟨get_total s, ?_, get_total _⟩
  rw [new_getD_val]
  by_cases h : raw = 0 <;> simp [h]

theorem hashOnce_mk_empty {T : Type} (v : T) (bh : T → Nat) :
    CachedHash.hashOnce ⟨v, ⟨0⟩, bh⟩ =
      ⟨⟨v, ⟨if bh v = 0 then 1 else bh v⟩, bh⟩,
        (if bh v = 0 then 1 else bh v), 1⟩ := by
  rw [hashOnce_of_empty (show (CachedHash.mk v ⟨0⟩ bh).hash.get_raw = none from rfl)]
  rfl

theorem hashOnce_mk_pop {T : Type} (v : T) (bh : T → Nat) (d : Nat)
    (hd : d ≠ 0) :
    CachedHash.hashOnce ⟨v, ⟨d⟩, bh⟩ = ⟨⟨v, ⟨d⟩, bh⟩, d, 0⟩ := by
  refine hashOnce_of_populated ?_
  show (AtomicOptionNonZeroU64.mk d).get_raw = some d
  rw [get_raw_mk, if_neg hd]

/-- C4: zero-digest remap — on a cache miss, a raw digest of `0` is stored
and fed as `1` and the slot afterwards reports a present value, while any
non-zero raw digest is stored and fed unchanged. -/
theorem zero_digest_remap {T : Type} (c : CachedHash T)
    (hempty : c.hash.get_raw = none) :
    (c.build_hasher c.value = 0 →
      (CachedHash.hashOnce c).fed = 1 ∧
      (CachedHash.hashOnce c).state.hash.get_raw = some 1 ∧
      ((CachedHash.hashOnce c).state.hash.get_raw).isSome = true) ∧
    (c.build_hasher c.value ≠ 0 →
      (CachedHash.hashOnce c).fed = c.build_hasher c.value ∧
      (CachedHash.hashOnce c).state.hash.get_raw =
        some (c.build_hasher c.value)) := by
  rw [hashOnce_of_empty hempty]
  constructor
  · intro h0
    have hD : CachedHash.currentDigest c = 1 := by
      unfold CachedHash.currentDigest
      rw [if_pos h0]
    simp [hD, AtomicOptionNonZeroU64.get_raw]
  · intro hne
    have hD : CachedHash.currentDigest c = c.build_hasher c.value := by
      unfold CachedHash.currentDigest
      rw [if_neg hne]
    simp [hD, AtomicOptionNonZeroU64.get_raw, hne]

/-- A concrete wrapper whose digest function is rigged to produce the raw
digest `0`. -/
def zeroC : CachedHash Nat :=
  ⟨5, ⟨0⟩, fun _ => 0⟩

/-- C4 witness: the remap at the rigged all-zero digest function. -/
theorem zero_digest_remap_witness :
    (zeroC.build_hasher zeroC.value = 0 →
      (CachedHash.hashOnce zeroC).fed = 1 ∧
      (CachedHash.hashOnce zeroC).state.hash.get_raw = some 1 ∧
      ((CachedHash.hashOnce zeroC).state.hash.get_raw).isSome = true) ∧
    (zeroC.build_hasher zeroC.value ≠ 0 →
      (CachedHash.hashOnce zeroC).fed = zeroC.build_hasher zeroC.value ∧
      (CachedHash.hashOnce zeroC).state.hash.get_raw =
        some (zeroC.build_hasher zeroC.value)) :=
  zero_digest_remap zeroC rfl

/-- C5: digest stability — hashing a fresh wrapper twice feeds the same
digest both times, and interposing a manual invalidation or a
content-preserving `get_mut` forces a recomputation (the provider runs
again) that still feeds a digest equal to the original. -/
theorem digest_stability {T : Type} (v : T) (bh : T → Nat) :
    (CachedHash.hashOnce (CachedHash.hashOnce (CachedHash.new v bh)).state).fed =
      (CachedHash.hashOnce (CachedHash.new v bh)).fed ∧
    ((CachedHash.hashOnce (CachedHash.invalidate_hash
        (CachedHash.hashOnce (CachedHash.new v bh)).state)).fed =
      (CachedHash.hashOnce (CachedHash.new v bh)).fed ∧
     (CachedHash.hashOnce (CachedHash.invalidate_hash
        (CachedHash.hashOnce (CachedHash.new v bh)).state)).providerCalls = 1) ∧
    ((CachedHash.hashOnce (CachedHash.get_mut
        (CachedHash.hashOnce (CachedHash.new v bh)).state).1).fed =
      (CachedHash.hashOnce (CachedHash.new v bh)).fed ∧
     (CachedHash.hashOnce (CachedHash.get_mut
        (CachedHash.hashOnce (CachedHash.new v bh)).state).1).providerCalls = 1) := by
  have hD : (if bh v = 0 then 1 else bh v) ≠ 0 := by
    by_cases h : bh v = 0 <;> simp [h]
  simp only [CachedHash.new, CachedHash.new_with_build_hasher,
    AtomicOptionNonZeroU64.new_none, hashOnce_mk_empty,
    CachedHash.invalidate_hash, CachedHash.get_mut,
    AtomicOptionNonZeroU64.set, hashOnce_mk_pop v bh _ hD]
  simp [hashOnce_mk_empty]

/-- C6: equality is by wrapped value only — two wrappers compare exactly as
their wrapped values do (equal values give `true`, under a lawful equality
this is value equality), whatever their cache cells and build hashers are.
In particular two wrappers of equal values with different cache states
compare equal. -/
theorem equality_by_value_only {T : Type} [BEq T] [LawfulBEq T]
    (va vb : T) (s1 s2 : AtomicOptionNonZeroU64) (g1 g2 : T → Nat) :
    (CachedHash.eq ⟨va, s1, g1⟩ ⟨vb, s2, g2⟩ = (va == vb)) ∧
    (CachedHash.eq ⟨va, s1, g1⟩ ⟨vb, s2, g2⟩ = true ↔ va = vb) ∧
    (∀ a b : CachedHash T, CachedHash.eq a b = (a.value == b.value)) := by
  refine ⟨rfl, ?_, fun a b => rfl⟩
  simp [CachedHash.eq]

/-- C6 witness: wrappers of the value `3` with an unpopulated and a
populated cache cell and different build hashers compare equal. -/
theorem equality_by_value_only_witness :
    (CachedHash.eq (CachedHash.mk (3 : Nat) ⟨0⟩ (fun _ => 0))
        (CachedHash.mk (3 : Nat) ⟨7⟩ (fun _ => 1)) = ((3 : Nat) == 3)) ∧
    (CachedHash.eq (CachedHash.mk (3 : Nat) ⟨0⟩ (fun _ => 0))
        (CachedHash.mk (3 : Nat) ⟨7⟩ (fun _ => 1)) = true ↔ (3 : Nat) = 3) ∧
    (∀ a b : CachedHash Nat, CachedHash.eq a b = (a.value == b.value)) :=
  equality_by_value_only 3 3 ⟨0⟩ ⟨7⟩ (fun _ => 0) (fun _ => 1)

/-- C8: clone preserves cache state — a clone copies the value and the
build hasher and snapshots the cache cell without invoking the digest
provider; when the source holds a digest, the clone's first hashing call
takes the fast path with zero provider invocations, and invalidating the
clone's independent cell leaves the source cell populated. -/
theorem clone_preserves_cache {T : Type} (c : CachedHash T) (d : Nat)
    (h : c.hash.get_raw = some d) :
    (CachedHash.clone c).value = c.value ∧
    (CachedHash.clone c).build_hasher = c.build_hasher ∧
    (CachedHash.clone c).hash.word = c.hash.word ∧
    CachedHash.hashOnce (CachedHash.clone c) = ⟨CachedHash.clone c, d, 0⟩ ∧
    ((CachedHash.invalidate_hash (CachedHash.clone c)).hash.get_raw = none ∧
      c.hash.get_raw = some d) := by
  refine ⟨rfl, rfl, rfl, ?_, rfl, h⟩
  rw [clone_eq_self]
  exact hashOnce_of_populated h

/-- A concrete wrapper over `Nat` whose cache cell already holds the
digest `7`. -/
def popC : CachedHash Nat :=
  ⟨5, ⟨7⟩, fun _ => 7⟩

/-- C8 witness: cloning the populated concrete wrapper. -/
theorem clone_preserves_cache_witness :
    (CachedHash.clone popC).value = popC.value ∧
    (CachedHash.clone popC).build_hasher = popC.build_hasher ∧
    (CachedHash.clone popC).hash.word = popC.hash.word ∧
    CachedHash.hashOnce (CachedHash.clone popC) = ⟨CachedHash.clone popC, 7, 0⟩ ∧
    ((CachedHash.invalidate_hash (CachedHash.clone popC)).hash.get_raw = none ∧
      popC.hash.get_raw = some 7) :=
  clone_preserves_cache popC 7 rfl

/-- C10: frame property — manual invalidation and `get_mut` before any
caller-side write leave the wrapped value and the build hasher unchanged,
and `take_value` after any sequence of operations whose mutable accesses
write nothing returns the originally stored value. -/
theorem frame_of_invalidate_and_get_mut {T : Type} (c : CachedHash T)
    (v : T) (bh : T → Nat) (ops : List (Op T))
    (hid : ∀ f, Op.getMut f ∈ ops → ∀ x, f x = x) :
    ((CachedHash.invalidate_hash c).value = c.value ∧
     (CachedHash.invalidate_hash c).build_hasher = c.build_hasher) ∧
    ((CachedHash.get_mut c).1.value = c.value ∧
     (CachedHash.get_mut c).1.build_hasher = c.build_hasher) ∧
    CachedHash.take_value (applyOps (CachedHash.new v bh) ops) = v :=
  ⟨⟨rfl, rfl⟩, ⟨rfl, rfl⟩, applyOps_value (CachedHash.new v bh) ops hid⟩

/-- A concrete operation sequence with no mutable access. -/
def opsW : List (Op Nat) :=
  [Op.invalidate, Op.hashOp, Op.cloneOp]

/-- C10 witness: the frame property at a concrete wrapper and a concrete
invalidate-hash-clone sequence. -/
theorem frame_of_invalidate_and_get_mut_witness :
    ((CachedHash.invalidate_hash popC).value = popC.value ∧
     (CachedHash.invalidate_hash popC).build_hasher = popC.build_hasher) ∧
    ((CachedHash.get_mut popC).1.value = popC.value ∧
     (CachedHash.get_mut popC).1.build_hasher = popC.build_hasher) ∧
    CachedHash.take_value (applyOps (CachedHash.new (5 : Nat) (fun _ => 7)) opsW) = 5 :=
  frame_of_invalidate_and_get_mut popC 5 (fun _ => 7) opsW
    (by intro f hf x; simp [opsW] at hf)

end Cachedhash
